import Mathlib

/-!
Product store of `api-service` (`database/db.go`, `models/product.go`).

A shallow embedding of the in-memory product store and proofs about its
operations.

Modelling conventions, each taken from the Go source:

* `*models.Product` values are addresses (`Addr`) into a memory `mem` of
  `Product` records.  The store keeps pointers (`map[int]*models.Product`), and
  `CreateProduct`, `GetProduct`, `UpdateProduct` hand pointers in and out, so
  reads and writes go through `mem`.  An `Addr` is a non-nil pointer.
* `map[int]*models.Product` is an association list without duplicate keys
  (`AList`): `m[k]` is `lookup`, `m[k] = v` is `insert`, `delete(m, k)` is
  `erase`.  The order in which `range` visits the entries is unspecified in Go
  and is a parameter (`RangeOrder`) of the two loops over the map.
* Go `int` is a 64-bit two's complement integer: values are `Int`s and the one
  arithmetic operation of the store, `db.nextID++`, wraps around (`wrapInt`).
  Go `string` is `String`.
* `float64` is `Float64` below: NaN, the two infinities and the finite values;
  the store only copies prices and compares them with zero.  The seed prices
  are the exact values of the `float64` literals.
* `time.Now()` reads the next value of a clock that is part of the state:
  `clock` is the sequence of readings, `ticks` counts the readings taken.
* The `sync.RWMutex` is not modelled: operations run one after the other.
-/

namespace ApiService

/-! ## Go `int` -/

/-- Width of Go's `int` in bits, on a 64-bit target. -/
def intBits : Nat := 64

/-- The least `int`, -2^63. -/
def minInt : Int := -((2 ^ (intBits - 1) : Nat) : Int)

/-- The greatest `int`, 2^63 - 1. -/
def maxInt : Int := ((2 ^ (intBits - 1) : Nat) : Int) - 1

/-- The `int` that Go arithmetic yields for the exact result `x`: the value in
`minInt .. maxInt` that differs from `x` by a multiple of 2^64. -/
def wrapInt (x : Int) : Int := (x - minInt) % ((2 ^ intBits : Nat) : Int) + minInt

/-! ## models/product.go -/

/-- Values of Go's `float64`.  A finite value is given by the rational number it
denotes; the store never does arithmetic on prices. -/
inductive Float64 where
  | nan : Float64
  | inf (negative : Bool) : Float64
  | finite (q : ℚ) : Float64
deriving DecidableEq

/-- The Go comparison `x > 0` on `float64` (false for NaN). -/
def Float64.gtZero : Float64 → Bool
  | .nan => false
  | .inf negative => !negative
  | .finite q => decide (0 < q)

/-- The value `x` is zero or negative (`x <= 0` in Go; false for NaN). -/
def Float64.leZero : Float64 → Bool
  | .nan => false
  | .inf negative => negative
  | .finite q => decide (q ≤ 0)

instance : Inhabited Float64 := ⟨.finite 0⟩

/-- Instants of `time.Time`; the zero value is `0`. -/
abbrev Time := Int

/-- The record `models.Product`. -/
structure Product where
  ID : Int
  Name : String
  Description : String
  Price : Float64
  Stock : Int
  Category : String
  CreatedAt : Time
  UpdatedAt : Time
deriving DecidableEq, Inhabited

/-- The record `models.UpdateProductRequest`. -/
structure UpdateProductRequest where
  Name : String
  Description : String
  Price : Float64
  Stock : Int
  Category : String
deriving DecidableEq, Inhabited

/-! ## database/db.go: state -/

/-- A non-nil `*models.Product`. -/
abbrev Addr := Nat

/-- The type `map[int]*models.Product`. -/
abbrev ProductMap := AList (fun _ : Int => Addr)

/-- The struct `DB` (without its mutex). -/
structure DB where
  products : ProductMap
  nextID : Int

/-- Program state: the memory holding `Product` records, the allocator's next
free address, the clock read by `time.Now()`, the `sync.Once` guard of `GetDB`
and the store instance. -/
structure World where
  mem : Addr → Product
  brk : Addr
  clock : Nat → Time
  ticks : Nat
  onceDone : Bool
  db : DB

/-- The assignment `*a = f (*a)`: a write through the pointer `a`. -/
def World.modify (w : World) (a : Addr) (f : Product → Product) : World :=
  { w with mem := fun b => if b = a then f (w.mem b) else w.mem b }

/-- The value returned by the next `time.Now()`. -/
def World.now (w : World) : Time := w.clock w.ticks

/-- The state after one `time.Now()`. -/
def World.tick (w : World) : World := { w with ticks := w.ticks + 1 }

/-- Allocation of a new `Product` variable initialised to `p`: the state after
the allocation and the address of the variable. -/
def World.new (w : World) (p : Product) : World × Addr :=
  ({ w with mem := fun b => if b = w.brk then p else w.mem b, brk := w.brk + 1 }, w.brk)

/-- The visiting order of a `range` loop over the map, as a rearrangement of the
map's entries. -/
abbrev RangeOrder := List (Sigma fun _ : Int => Addr) → List (Sigma fun _ : Int => Addr)

/-- A `range` loop visits every entry of the map exactly once. -/
def RangeOrder.Valid (r : RangeOrder) : Prop := ∀ l, (r l).Perm l

/-! ## database/db.go: operations -/

/-- The method `GetAllProducts`: the loop appends a copy `*p` of every record. -/
def GetAllProducts (w : World) (order : RangeOrder) : List Product :=
  (order w.db.products.entries).foldl (fun products e => products ++ [w.mem e.2]) []

/-- The method `GetProduct`: the stored pointer and `true`, or `nil` and `false`. -/
def GetProduct (w : World) (id : Int) : Option Addr × Bool :=
  match w.db.products.lookup id with
  | none => (none, false)
  | some product => (some product, true)

/-- The method `CreateProduct`: writes the id and the two timestamps through
`product`, stores the pointer under the counter's value and increments the
counter (`db.nextID++`, which wraps around at `maxInt`).  Returns the state after
the call and the pointer it was given. -/
def CreateProduct (w : World) (product : Addr) : World × Addr :=
  let w1 := w.modify product (fun p => { p with ID := w.db.nextID })
  let w2 := (w1.modify product (fun p => { p with CreatedAt := w1.now })).tick
  let w3 := (w2.modify product (fun p => { p with UpdatedAt := w2.now })).tick
  let w4 := { w3 with db := { w3.db with products := w3.db.products.insert w3.db.nextID product } }
  let w5 := { w4 with db := { w4.db with nextID := wrapInt (w4.db.nextID + 1) } }
  (w5, product)

/-- The method `UpdateProduct`. -/
def UpdateProduct (w : World) (id : Int) (updates : UpdateProductRequest) :
    World × Option Addr × Bool :=
  match w.db.products.lookup id with
  | none => (w, none, false)
  | some product =>
    let w1 := if updates.Name ≠ "" then
      w.modify product (fun p => { p with Name := updates.Name }) else w
    let w2 := if updates.Description ≠ "" then
      w1.modify product (fun p => { p with Description := updates.Description }) else w1
    let w3 := if updates.Price.gtZero then
      w2.modify product (fun p => { p with Price := updates.Price }) else w2
    let w4 := if updates.Stock ≥ 0 then
      w3.modify product (fun p => { p with Stock := updates.Stock }) else w3
    let w5 := if updates.Category ≠ "" then
      w4.modify product (fun p => { p with Category := updates.Category }) else w4
    let w6 := (w5.modify product (fun p => { p with UpdatedAt := w5.now })).tick
    (w6, some product, true)

/-- The method `DeleteProduct`. -/
def DeleteProduct (w : World) (id : Int) : World × Bool :=
  match w.db.products.lookup id with
  | none => (w, false)
  | some _ => ({ w with db := { w.db with products := w.db.products.erase id } }, true)

/-- The method `SearchProducts`. -/
def SearchProducts (w : World) (order : RangeOrder) (category : String) : List Product :=
  (order w.db.products.entries).foldl
    (fun products e =>
      if category = "" ∨ (w.mem e.2).Category = category then products ++ [w.mem e.2]
      else products)
    []

/-- The slice `sampleProducts` of `seedData`.  The prices are the `float64` values
of the literals 1299.99, 29.99 and 149.99. -/
def sampleProducts : List Product :=
  [ { ID := 0, Name := "Laptop", Description := "High-performance laptop for developers",
      Price := .finite (5717416483970089 / 4398046511104), Stock := 15,
      Category := "Electronics", CreatedAt := 0, UpdatedAt := 0 },
    { ID := 0, Name := "Wireless Mouse", Description := "Ergonomic wireless mouse",
      Price := .finite (8441434551552573 / 281474976710656), Stock := 100,
      Category := "Accessories", CreatedAt := 0, UpdatedAt := 0 },
    { ID := 0, Name := "Mechanical Keyboard", Description := "RGB mechanical gaming keyboard",
      Price := .finite (659662996200489 / 4398046511104), Stock := 50, Category := "Accessories",
      CreatedAt := 0, UpdatedAt := 0 } ]

/-- Scope of the variable `p` of `for _, p := range sampleProducts`.  The language
version is fixed by the module file, which is not among the sources: from Go 1.22
every iteration has its own `p`, before that one `p` serves the whole loop. -/
inductive LoopVar where
  | perIteration
  | perLoop
deriving DecidableEq

/-- The method `seedData`: `CreateProduct(&p)` for every element of
`sampleProducts`. -/
def seedData (sem : LoopVar) (w : World) : World :=
  match sem with
  | .perIteration =>
    sampleProducts.foldl (fun w p => (CreateProduct (w.new p).1 (w.new p).2).1) w
  | .perLoop =>
    let a := (w.new default).2
    sampleProducts.foldl (fun w p => (CreateProduct (w.modify a (fun _ => p)) a).1)
      (w.new default).1

/-- The literal `&DB{products: make(map[int]*models.Product), nextID: 1}` of
`GetDB`: the empty store with counter 1. -/
def newDB : DB := { products := ∅, nextID := 1 }

/-- The function `GetDB`: on first use builds the empty store with counter 1 and
seeds it; later calls leave the instance as it is. -/
def GetDB (sem : LoopVar) (w : World) : World :=
  if w.onceDone then w
  else { seedData sem { w with db := newDB } with onceDone := true }

/-! ## Sequences of store operations -/

/-- One call of a store operation, with its arguments: `create` is
`CreateProduct`, `update` is `UpdateProduct`, `delete` is `DeleteProduct`, `get`
is `GetProduct`, `list` is `GetAllProducts`, `search` is `SearchProducts`. -/
inductive Call where
  | create (product : Addr)
  | update (id : Int) (updates : UpdateProductRequest)
  | delete (id : Int)
  | get (id : Int)
  | list (order : RangeOrder)
  | search (order : RangeOrder) (category : String)

/-- The state after a call.  The three read operations only take the read lock
and assign nothing. -/
def Call.run (w : World) : Call → World
  | .create product => (CreateProduct w product).1
  | .update id updates => (UpdateProduct w id updates).1
  | .delete id => (DeleteProduct w id).1
  | .get _ => w
  | .list _ => w
  | .search _ _ => w

/-- The number of `CreateProduct` calls in a sequence. -/
def numCreates : List Call → Nat
  | [] => 0
  | .create _ :: cs => numCreates cs + 1
  | _ :: cs => numCreates cs

/-- The `ID` of the product returned by each `CreateProduct` call of a sequence
run from state `w`, read when the call returns, in call order. -/
def createdIDs (w : World) : List Call → List Int
  | [] => []
  | .create product :: cs =>
    ((CreateProduct w product).1.mem (CreateProduct w product).2).ID ::
      createdIDs (CreateProduct w product).1 cs
  | c :: cs => createdIDs (c.run w) cs

/-- The state after a sequence of calls, run one after the other from `w`. -/
def runCalls (w : World) (cs : List Call) : World :=
  cs.foldl (fun w c => c.run w) w

/-- The pointers the store holds, one for every key of the map. -/
def storedPointers (w : World) : List Addr :=
  w.db.products.entries.map (fun e => e.2)

/-- Every `CreateProduct` call of the sequence, run from `w`, is given a pointer
that the store does not hold when the call is made. -/
def freshCreates (w : World) : List Call → Bool
  | [] => true
  | .create product :: cs =>
    decide (product ∉ storedPointers w) && freshCreates (CreateProduct w product).1 cs
  | c :: cs => freshCreates (c.run w) cs

/-! ## Concrete states used as examples -/

/-- A state before `GetDB` has run: empty memory, a clock that reads 0, 1, 2, ... -/
def bootWorld : World :=
  { mem := fun _ => default, brk := 0, clock := fun n => (n : Int), ticks := 0,
    onceDone := false, db := newDB }

/-- The product of the sparse-update scenario: name "X", price 10, stock 5,
category "C", stored under id 1. -/
def scenarioProduct : Product :=
  { ID := 1, Name := "X", Description := "", Price := .finite 10, Stock := 5, Category := "C",
    CreatedAt := 0, UpdatedAt := 0 }

/-- A store holding only `scenarioProduct`, at address 0 under id 1. -/
def scenarioWorld : World :=
  { mem := fun _ => scenarioProduct, brk := 1, clock := fun n => (n : Int) + 1, ticks := 0,
    onceDone := true, db := { products := AList.insert 1 0 ∅, nextID := 2 } }

/-- The request of the sparse-update scenario: price 20, every other field at its
zero value. -/
def priceOnlyRequest : UpdateProductRequest :=
  { Name := "", Description := "", Price := .finite 20, Stock := 0, Category := "" }

/-- A draft as the request layer builds it: id and timestamps at their zero
value. -/
def draftProduct : Product :=
  { ID := 0, Name := "Y", Description := "", Price := .finite 3, Stock := 7, Category := "C",
    CreatedAt := 0, UpdatedAt := 0 }

/-- The records held by the store, one for every key of the map: what the stored
pointers point to. -/
def storedRecords (w : World) : List Product :=
  w.db.products.entries.map (fun e => w.mem e.2)

/-- The store of `GetDB` (loop variable per iteration) built from `bootWorld`:
three products, ids 1, 2, 3, at addresses 0, 1, 2. -/
def seededWorld : World := GetDB .perIteration bootWorld

/-- A request that supplies a name only: name "Q", price 0, stock -1, the text
fields empty. -/
def nameOnlyRequest : UpdateProductRequest :=
  { Name := "Q", Description := "", Price := .finite 0, Stock := -1, Category := "" }

/-- The initialised store after a caller allocated one draft, at address 3. -/
def draftWorld : World := (seededWorld.new draftProduct).1

/-- The state after the caller gave that draft to `CreateProduct` twice: ids 4
and 5 hold the same pointer. -/
def sharedWorld : World := runCalls draftWorld [.create 3, .create 3]

/-- A write by code outside the store: `p.Name = "Z"` through a pointer `p`. -/
def renamed (p : Product) : Product := { p with Name := "Z" }

/-! ## Invariants of the reachable states -/

/-- Every stored record carries two clock readings that were already taken, the
one in `CreatedAt` not after the one in `UpdatedAt`. -/
def Stamped (w : World) : Prop :=
  ∀ k a, w.db.products.lookup k = some a →
    ∃ i j, i ≤ j ∧ j < w.ticks ∧ (w.mem a).CreatedAt = w.clock i ∧ (w.mem a).UpdatedAt = w.clock j

/-- Every stored record carries the key it is stored under in its `ID` field. -/
def Keyed (w : World) : Prop :=
  ∀ k a, w.db.products.lookup k = some a → (w.mem a).ID = k

/-- Every key of the map is below the identifier counter. -/
def KeysBelow (w : World) : Prop :=
  ∀ k a, w.db.products.lookup k = some a → k < w.db.nextID

/-! ## Basic facts about the state -/

@[simp] theorem World.modify_mem_self (w : World) (a : Addr) (f : Product → Product) :
    (w.modify a f).mem a = f (w.mem a) := by
  simp [World.modify]

@[simp] theorem World.modify_mem_of_ne (w : World) (a b : Addr) (f : Product → Product)
    (h : b ≠ a) : (w.modify a f).mem b = w.mem b := by
  simp [World.modify, h]

@[simp] theorem World.modify_db (w : World) (a : Addr) (f : Product → Product) :
    (w.modify a f).db = w.db := rfl

@[simp] theorem World.modify_now (w : World) (a : Addr) (f : Product → Product) :
    (w.modify a f).now = w.now := rfl

@[simp] theorem World.modify_ticks (w : World) (a : Addr) (f : Product → Product) :
    (w.modify a f).ticks = w.ticks := rfl

@[simp] theorem World.modify_clock (w : World) (a : Addr) (f : Product → Product) :
    (w.modify a f).clock = w.clock := rfl

@[simp] theorem World.tick_mem (w : World) : w.tick.mem = w.mem := rfl

@[simp] theorem World.tick_db (w : World) : w.tick.db = w.db := rfl

@[simp] theorem World.tick_ticks (w : World) : w.tick.ticks = w.ticks + 1 := rfl

@[simp] theorem World.tick_clock (w : World) : w.tick.clock = w.clock := rfl

/-! ## Basic facts about `int` -/

theorem minInt_le_zero : minInt ≤ 0 := by decide

theorem wrapInt_of_inRange (x : Int) (hlo : minInt ≤ x) (hhi : x ≤ maxInt) : wrapInt x = x := by
  unfold wrapInt
  unfold minInt maxInt intBits at *
  norm_num at *
  omega

theorem wrapInt_add_wrapInt (x y : Int) : wrapInt (wrapInt x + y) = wrapInt (x + y) := by
  unfold wrapInt minInt intBits
  norm_num
  omega

theorem wrapInt_wrapInt (x : Int) : wrapInt (wrapInt x) = wrapInt x := by
  have h := wrapInt_add_wrapInt x 0
  simpa using h

theorem wrapInt_succ_of_lt (x : Int) (hlo : 1 ≤ x) (hhi : x < maxInt) :
    wrapInt (x + 1) = x + 1 := by
  have h0 := minInt_le_zero
  exact wrapInt_of_inRange (x + 1) (by omega) (by omega)

/-! ## Basic facts about the operations -/

theorem CreateProduct_nextID (w : World) (product : Addr) :
    (CreateProduct w product).1.db.nextID = wrapInt (w.db.nextID + 1) := rfl

theorem CreateProduct_ptr (w : World) (product : Addr) :
    (CreateProduct w product).2 = product := rfl

theorem CreateProduct_products (w : World) (product : Addr) :
    (CreateProduct w product).1.db.products = w.db.products.insert w.db.nextID product := rfl

theorem CreateProduct_mem_self (w : World) (product : Addr) :
    (CreateProduct w product).1.mem product =
      { w.mem product with
        ID := w.db.nextID, CreatedAt := w.clock w.ticks, UpdatedAt := w.clock (w.ticks + 1) } := by
  simp [CreateProduct, World.modify, World.tick, World.now]

theorem CreateProduct_mem_other (w : World) (product a : Addr) (h : a ≠ product) :
    (CreateProduct w product).1.mem a = w.mem a := by
  simp [CreateProduct, World.modify, World.tick, World.now, h]

theorem UpdateProduct_nextID (w : World) (id : Int) (updates : UpdateProductRequest) :
    (UpdateProduct w id updates).1.db.nextID = w.db.nextID := by
  unfold UpdateProduct
  cases w.db.products.lookup id with
  | none => rfl
  | some product =>
    dsimp only
    split_ifs <;> rfl

theorem DeleteProduct_nextID (w : World) (id : Int) :
    (DeleteProduct w id).1.db.nextID = w.db.nextID := by
  unfold DeleteProduct
  cases w.db.products.lookup id <;> rfl

theorem createdIDs_eq (cs : List Call) : ∀ w : World, wrapInt w.db.nextID = w.db.nextID →
    createdIDs w cs
      = (List.range (numCreates cs)).map (fun k => wrapInt (w.db.nextID + ((k : Nat) : Int))) := by
  induction cs with
  | nil => intro w _; rfl
  | cons c cs ih =>
    intro w hw
    cases c with
    | create product =>
      simp only [createdIDs, numCreates, List.range_succ_eq_map, List.map_cons, List.map_map]
      rw [ih _ (wrapInt_wrapInt _), CreateProduct_ptr, CreateProduct_mem_self,
        CreateProduct_nextID]
      simp only [Nat.cast_zero, add_zero, hw, List.cons.injEq, true_and]
      apply List.map_congr_left
      intro k _
      simp only [Function.comp, Nat.cast_succ]
      rw [wrapInt_add_wrapInt]
      congr 1
      ring
    | update id updates =>
      simp only [createdIDs, numCreates, Call.run]
      rw [ih _ (by rw [UpdateProduct_nextID]; exact hw), UpdateProduct_nextID]
    | delete id =>
      simp only [createdIDs, numCreates, Call.run]
      rw [ih _ (by rw [DeleteProduct_nextID]; exact hw), DeleteProduct_nextID]
    | get id => simp only [createdIDs, numCreates, Call.run]; rw [ih _ hw]
    | list order => simp only [createdIDs, numCreates, Call.run]; rw [ih _ hw]
    | search order category => simp only [createdIDs, numCreates, Call.run]; rw [ih _ hw]

theorem numCreates_replicate (n : Nat) (product : Addr) :
    numCreates (List.replicate n (Call.create product)) = n := by
  induction n with
  | zero => rfl
  | succ n ih => rw [List.replicate_succ, numCreates, ih]

theorem UpdateProduct_found (w : World) (id : Int) (updates : UpdateProductRequest) (a : Addr)
    (h : w.db.products.lookup id = some a) :
    (UpdateProduct w id updates).2 = (some a, true) := by
  unfold UpdateProduct
  rw [h]

theorem UpdateProduct_mem_self (w : World) (id : Int) (updates : UpdateProductRequest) (a : Addr)
    (h : w.db.products.lookup id = some a) :
    (UpdateProduct w id updates).1.mem a =
      { ID := (w.mem a).ID
        Name := if updates.Name ≠ "" then updates.Name else (w.mem a).Name
        Description :=
          if updates.Description ≠ "" then updates.Description else (w.mem a).Description
        Price := if updates.Price.gtZero then updates.Price else (w.mem a).Price
        Stock := if updates.Stock ≥ 0 then updates.Stock else (w.mem a).Stock
        Category := if updates.Category ≠ "" then updates.Category else (w.mem a).Category
        CreatedAt := (w.mem a).CreatedAt
        UpdatedAt := w.clock w.ticks } := by
  unfold UpdateProduct
  rw [h]
  dsimp only
  split_ifs <;> simp [World.now]

theorem UpdateProduct_mem_other (w : World) (id : Int) (updates : UpdateProductRequest)
    (a b : Addr) (h : w.db.products.lookup id = some a) (hb : b ≠ a) :
    (UpdateProduct w id updates).1.mem b = w.mem b := by
  unfold UpdateProduct
  rw [h]
  dsimp only
  split_ifs <;> simp [hb]

theorem UpdateProduct_not_found (w : World) (id : Int) (updates : UpdateProductRequest)
    (h : w.db.products.lookup id = none) :
    UpdateProduct w id updates = (w, none, false) := by
  unfold UpdateProduct
  rw [h]

/-! ## C1: identifier assignment -/

/-- C1, counterexample. From the freshly constructed empty store, 2^63 calls of
`CreateProduct`: the call number 2^63 - 1 returns id 2^63 - 1, the greatest `int`,
the counter wraps around, and the call number 2^63 returns id -2^63, which is not
2^63, not positive and not greater than the id before it. -/
theorem C1_counterexample :
    (createdIDs bootWorld
        (List.replicate 9223372036854775808 (Call.create 0)))[9223372036854775806]?
        = some 9223372036854775807
      ∧ (createdIDs bootWorld
          (List.replicate 9223372036854775808 (Call.create 0)))[9223372036854775807]?
        = some (-9223372036854775808) := by
  constructor
  · rw [createdIDs_eq _ _ (by decide), numCreates_replicate, List.getElem?_map,
      List.getElem?_range (by norm_num)]
    decide
  · rw [createdIDs_eq _ _ (by decide), numCreates_replicate, List.getElem?_map,
      List.getElem?_range (by norm_num)]
    decide

/-- C1, amended. Starting from a freshly constructed empty store (counter 1), for
every finite sequence of store operations with at most 2^63 - 1 `CreateProduct`
calls (`maxInt`, the greatest value of the counter), the k-th `CreateProduct` call
returns a product with id exactly k: the returned ids are 1, 2, ..., n in call
order.  Hence they are strictly increasing in call order, positive and pairwise
distinct, so no id is handed out twice, whatever was deleted in between. -/
theorem C1_create_ids (w : World) (cs : List Call)
    (hbound : ((numCreates cs : Nat) : Int) ≤ maxInt) :
    createdIDs { w with db := newDB } cs
        = (List.range (numCreates cs)).map (fun k => ((k : Nat) : Int) + 1)
      ∧ (createdIDs { w with db := newDB } cs).Pairwise (· < ·)
      ∧ (∀ i ∈ createdIDs { w with db := newDB } cs, 0 < i)
      ∧ (createdIDs { w with db := newDB } cs).Nodup := by
  have h : createdIDs { w with db := newDB } cs
      = (List.range (numCreates cs)).map (fun k => ((k : Nat) : Int) + 1) := by
    have h1 : wrapInt (1 : Int) = 1 := by decide
    rw [createdIDs_eq cs { w with db := newDB } h1]
    apply List.map_congr_left
    intro k hk
    have hk' : ((k : Nat) : Int) < ((numCreates cs : Nat) : Int) := by
      exact_mod_cast List.mem_range.mp hk
    have h0 := minInt_le_zero
    show wrapInt ((1 : Int) + (k : Int)) = (k : Int) + 1
    rw [wrapInt_of_inRange _ (by omega) (by omega)]
    ring
  have hlt : (createdIDs { w with db := newDB } cs).Pairwise (· < ·) := by
    rw [h, List.pairwise_map]
    refine (List.pairwise_lt_range (numCreates cs)).imp ?_
    intro a b hab
    have : (a : Int) < (b : Int) := by exact_mod_cast hab
    linarith
  refine ⟨h, hlt, ?_, hlt.imp (fun hab => ne_of_lt hab)⟩
  intro i hi
  rw [h, List.mem_map] at hi
  obtain ⟨k, _, rfl⟩ := hi
  positivity

/-- C1, amended, on a sequence that creates, deletes the created record, and
creates twice more, reusing a pointer: the ids returned are 1, 2, 3. -/
theorem C1_create_ids_witness :
    ((numCreates
        [.create 0, .delete 1, .create 0, .get 1, .list id, .update 2 priceOnlyRequest,
          .search id "C", .create 5] : Nat) : Int) ≤ maxInt
      ∧ createdIDs { scenarioWorld with db := newDB }
          [.create 0, .delete 1, .create 0, .get 1, .list id, .update 2 priceOnlyRequest,
            .search id "C", .create 5]
        = [1, 2, 3] :=
  ⟨by decide,
    (C1_create_ids scenarioWorld
      [.create 0, .delete 1, .create 0, .get 1, .list id, .update 2 priceOnlyRequest,
        .search id "C", .create 5] (by decide)).1⟩

/-! ## C2: read after write -/

/-- C2. Read-after-write: for every state and every draft, the product `p`
returned by `CreateProduct` is found by an immediately following
`GetProduct(p.ID)`, and the product found is equal to `p` in all fields. -/
theorem C2_read_after_write (w : World) (product : Addr) :
    ∃ q : Addr,
      GetProduct (CreateProduct w product).1
          ((CreateProduct w product).1.mem (CreateProduct w product).2).ID = (some q, true)
        ∧ (CreateProduct w product).1.mem q
            = (CreateProduct w product).1.mem (CreateProduct w product).2 := by
  refine ⟨product, ?_, rfl⟩
  rw [CreateProduct_ptr, CreateProduct_mem_self]
  unfold GetProduct
  rw [CreateProduct_products, AList.lookup_insert]

/-! ## C3: sparse update -/

/-- C3, counterexample. In the scenario of the claim (stored name "X", price 10,
stock 5, category "C"; request with price 20 and every other field at its zero
value) the update succeeds and yields name "X", price 20, category "C", but stock
0: the stock is not left at its previous value 5. -/
theorem C3_counterexample :
    scenarioWorld.db.products.lookup 1 = some 0
      ∧ (scenarioWorld.mem 0).Stock = 5
      ∧ (UpdateProduct scenarioWorld 1 priceOnlyRequest).2 = (some 0, true)
      ∧ ((UpdateProduct scenarioWorld 1 priceOnlyRequest).1.mem 0).Name = "X"
      ∧ ((UpdateProduct scenarioWorld 1 priceOnlyRequest).1.mem 0).Price = .finite 20
      ∧ ((UpdateProduct scenarioWorld 1 priceOnlyRequest).1.mem 0).Category = "C"
      ∧ ((UpdateProduct scenarioWorld 1 priceOnlyRequest).1.mem 0).Stock = 0
      ∧ ((UpdateProduct scenarioWorld 1 priceOnlyRequest).1.mem 0).Stock
          ≠ (scenarioWorld.mem 0).Stock := by
  decide

/-- C3, amended. For every existing product and every request that supplies only
a price (price above zero; name, description and category empty, stock zero), the
update succeeds, the resulting product has the new price, its name, description
and category are left at their previous values, and its stock is the request's
stock, zero. -/
theorem C3_price_only_update (w : World) (id : Int) (product : Addr)
    (updates : UpdateProductRequest)
    (hfound : w.db.products.lookup id = some product)
    (hname : updates.Name = "") (hdesc : updates.Description = "")
    (hcat : updates.Category = "") (hstock : updates.Stock = 0)
    (hprice : updates.Price.gtZero = true) :
    (UpdateProduct w id updates).2 = (some product, true)
      ∧ ((UpdateProduct w id updates).1.mem product).Price = updates.Price
      ∧ ((UpdateProduct w id updates).1.mem product).Name = (w.mem product).Name
      ∧ ((UpdateProduct w id updates).1.mem product).Description = (w.mem product).Description
      ∧ ((UpdateProduct w id updates).1.mem product).Category = (w.mem product).Category
      ∧ ((UpdateProduct w id updates).1.mem product).Stock = 0 := by
  rw [UpdateProduct_mem_self w id updates product hfound]
  refine ⟨UpdateProduct_found w id updates product hfound, ?_⟩
  simp [hname, hdesc, hcat, hstock, hprice]

/-- C3, amended, in the scenario of the claim: name "X", price 20, category "C",
stock 0. -/
theorem C3_price_only_update_witness :
    scenarioWorld.db.products.lookup 1 = some 0
      ∧ (UpdateProduct scenarioWorld 1 priceOnlyRequest).2 = (some 0, true)
      ∧ ((UpdateProduct scenarioWorld 1 priceOnlyRequest).1.mem 0).Price = priceOnlyRequest.Price
      ∧ ((UpdateProduct scenarioWorld 1 priceOnlyRequest).1.mem 0).Name = (scenarioWorld.mem 0).Name
      ∧ ((UpdateProduct scenarioWorld 1 priceOnlyRequest).1.mem 0).Description
          = (scenarioWorld.mem 0).Description
      ∧ ((UpdateProduct scenarioWorld 1 priceOnlyRequest).1.mem 0).Category
          = (scenarioWorld.mem 0).Category
      ∧ ((UpdateProduct scenarioWorld 1 priceOnlyRequest).1.mem 0).Stock = 0 :=
  ⟨by decide,
    C3_price_only_update scenarioWorld 1 0 priceOnlyRequest (by decide) (by decide) (by decide)
      (by decide) (by decide) (by decide)⟩

/-! ## The two loops over the map -/

theorem foldl_append_singleton {α β : Type} (f : α → β) (l : List α) : ∀ acc : List β,
    l.foldl (fun products e => products ++ [f e]) acc = acc ++ l.map f := by
  induction l with
  | nil => intro acc; simp
  | cons x xs ih => intro acc; simp [ih]

theorem foldl_append_if {α β : Type} (f : α → β) (c : β → Prop) [DecidablePred c]
    (l : List α) : ∀ acc : List β,
    l.foldl (fun products e => if c (f e) then products ++ [f e] else products) acc
      = acc ++ (l.map f).filter (fun p => decide (c p)) := by
  induction l with
  | nil => intro acc; simp
  | cons x xs ih =>
    intro acc
    by_cases hx : c (f x) <;> simp [ih, hx]

theorem GetAllProducts_eq (w : World) (order : RangeOrder) :
    GetAllProducts w order = (order w.db.products.entries).map (fun e => w.mem e.2) := by
  unfold GetAllProducts
  rw [foldl_append_singleton]
  rfl

theorem SearchProducts_eq (w : World) (order : RangeOrder) (category : String) :
    SearchProducts w order category
      = ((order w.db.products.entries).map (fun e => w.mem e.2)).filter
          (fun p => decide (category = "" ∨ p.Category = category)) := by
  have h := foldl_append_if (fun e : (Sigma fun _ : Int => Addr) => w.mem e.2)
    (fun p : Product => category = "" ∨ p.Category = category)
    (order w.db.products.entries) []
  simpa [SearchProducts] using h

theorem GetAllProducts_perm (w : World) (order : RangeOrder) (h : order.Valid) :
    (GetAllProducts w order).Perm (storedRecords w) := by
  rw [GetAllProducts_eq]
  exact (h _).map _

theorem SearchProducts_perm (w : World) (order : RangeOrder) (category : String)
    (h : order.Valid) :
    (SearchProducts w order category).Perm
      ((storedRecords w).filter (fun p => decide (category = "" ∨ p.Category = category))) := by
  rw [SearchProducts_eq]
  exact ((h _).map _).filter _

theorem seed_entries (w : World) (h : w.onceDone = false) :
    (GetDB .perIteration w).db.products.entries
      = [⟨3, w.brk + 2⟩, ⟨2, w.brk + 1⟩, ⟨1, w.brk⟩] := by
  have e2 : wrapInt 2 = 2 := by decide
  have e3 : wrapInt 3 = 3 := by decide
  have e4 : wrapInt 4 = 4 := by decide
  simp [GetDB, h, seedData, sampleProducts, CreateProduct, World.new, newDB, World.modify,
    World.tick, e2, e3, e4]

theorem seed_mem (w : World) (h : w.onceDone = false) :
    (GetDB .perIteration w).mem w.brk
        = { ID := 1, Name := "Laptop", Description := "High-performance laptop for developers",
            Price := .finite (5717416483970089 / 4398046511104), Stock := 15,
            Category := "Electronics",
            CreatedAt := w.clock w.ticks, UpdatedAt := w.clock (w.ticks + 1) }
      ∧ (GetDB .perIteration w).mem (w.brk + 1)
        = { ID := 2, Name := "Wireless Mouse", Description := "Ergonomic wireless mouse",
            Price := .finite (8441434551552573 / 281474976710656), Stock := 100,
            Category := "Accessories",
            CreatedAt := w.clock (w.ticks + 2), UpdatedAt := w.clock (w.ticks + 3) }
      ∧ (GetDB .perIteration w).mem (w.brk + 2)
        = { ID := 3, Name := "Mechanical Keyboard",
            Description := "RGB mechanical gaming keyboard",
            Price := .finite (659662996200489 / 4398046511104), Stock := 50,
            Category := "Accessories",
            CreatedAt := w.clock (w.ticks + 4), UpdatedAt := w.clock (w.ticks + 5) } := by
  have h1 : ¬ w.brk = w.brk + 1 := by simp
  have h2 : ¬ w.brk = w.brk + 1 + 1 := by simp [Nat.add_assoc]
  have h3 : ¬ w.brk + 1 = w.brk + 1 + 1 := by simp
  have h4 : ¬ w.brk = w.brk + 2 := by simp
  have e2 : wrapInt 2 = 2 := by decide
  have e3 : wrapInt 3 = 3 := by decide
  have e4 : wrapInt 4 = 4 := by decide
  simp [GetDB, h, seedData, sampleProducts, CreateProduct, World.new, newDB, World.modify,
    World.tick, World.now, h1, h2, h3, h4, e2, e3, e4]

theorem RangeOrder.valid_id : RangeOrder.Valid id := fun l => List.Perm.refl l

theorem RangeOrder.valid_reverse : RangeOrder.Valid List.reverse := fun l => List.reverse_perm l

/-! ## C4: seed scenario -/

theorem DeleteProduct_found (w : World) (id : Int) (a : Addr)
    (h : w.db.products.lookup id = some a) :
    DeleteProduct w id
      = ({ w with db := { w.db with products := w.db.products.erase id } }, true) := by
  unfold DeleteProduct
  rw [h]

theorem DeleteProduct_not_found (w : World) (id : Int)
    (h : w.db.products.lookup id = none) : DeleteProduct w id = (w, false) := by
  unfold DeleteProduct
  rw [h]

theorem GetProduct_not_found (w : World) (id : Int)
    (h : w.db.products.lookup id = none) : GetProduct w id = (none, false) := by
  unfold GetProduct
  rw [h]

/-- C5. Delete then Get: for every state and id, `DeleteProduct(id)` returns true
if and only if a record was stored under that id; after it returns true,
`GetProduct(id)` returns not-found `(nil, false)` and a second
`DeleteProduct(id)` returns false. -/
theorem C5_delete_then_get (w : World) (id : Int) :
    ((DeleteProduct w id).2 = true ↔ ∃ a, w.db.products.lookup id = some a)
      ∧ ((DeleteProduct w id).2 = true →
          GetProduct (DeleteProduct w id).1 id = (none, false)
            ∧ (DeleteProduct (DeleteProduct w id).1 id).2 = false) := by
  cases h : w.db.products.lookup id with
  | none =>
    rw [DeleteProduct_not_found w id h]
    simp
  | some a =>
    rw [DeleteProduct_found w id a h]
    have he : (w.db.products.erase id).lookup id = none := AList.lookup_erase id _
    refine ⟨by simp, fun _ => ⟨?_, ?_⟩⟩
    · exact GetProduct_not_found _ id he
    · rw [DeleteProduct_not_found _ id he]

/-- C5 at the store of the scenario, deleting the stored id 1. -/
theorem C5_delete_then_get_witness :
    (DeleteProduct scenarioWorld 1).2 = true
      ∧ GetProduct (DeleteProduct scenarioWorld 1).1 1 = (none, false)
      ∧ (DeleteProduct (DeleteProduct scenarioWorld 1).1 1).2 = false :=
  ⟨by decide, (C5_delete_then_get scenarioWorld 1).2 (by decide)⟩

/-! ## C6: search is an exact match -/

/-- C6. Search exact match: for every state and every non-empty category text
`c`, `SearchProducts(c)` returns, in some order, exactly the stored products whose
category is equal to `c`, each once per stored record and none other. -/
theorem C6_search_exact_match (w : World) (order : RangeOrder) (c : String)
    (horder : order.Valid) (hc : c ≠ "") :
    (SearchProducts w order c).Perm
      ((storedRecords w).filter (fun p => decide (p.Category = c))) := by
  have h := SearchProducts_perm w order c horder
  simpa [hc] using h

/-- C6 in the seeded store, which has products in the categories "Electronics"
and "Accessories": the search for "Electronics" returns only the Laptop, the
search for "electronics" returns nothing. -/
theorem C6_search_exact_match_witness :
    RangeOrder.Valid id ∧ "Electronics" ≠ ""
      ∧ (SearchProducts (GetDB .perIteration bootWorld) id "Electronics").Perm
          ((storedRecords (GetDB .perIteration bootWorld)).filter
            (fun p => decide (p.Category = "Electronics")))
      ∧ (SearchProducts (GetDB .perIteration bootWorld) id "Electronics").map
            (fun p => (p.Name, p.Category)) = [("Laptop", "Electronics")]
      ∧ SearchProducts (GetDB .perIteration bootWorld) id "electronics" = [] :=
  ⟨RangeOrder.valid_id, by decide,
    C6_search_exact_match (GetDB .perIteration bootWorld) id "Electronics" RangeOrder.valid_id
      (by decide),
    by decide, by decide⟩

/-! ## C7: the empty filter -/

/-- C7. Empty filter means no filter: for every state, `SearchProducts("")`
returns the same collection of products as `GetAllProducts()`, as a multiset,
whatever the stored products' own categories and whatever order each of the two
loops visits the map in. -/
theorem C7_empty_filter (w : World) (searchOrder listOrder : RangeOrder)
    (hs : searchOrder.Valid) (hl : listOrder.Valid) :
    (SearchProducts w searchOrder "").Perm (GetAllProducts w listOrder) := by
  have h1 := SearchProducts_perm w searchOrder "" hs
  have h2 := GetAllProducts_perm w listOrder hl
  simp only [true_or, decide_True, List.filter_true] at h1
  exact h1.trans h2.symm

/-- C7 in the seeded store, the search visiting the map in reverse order. -/
theorem C7_empty_filter_witness :
    RangeOrder.Valid List.reverse ∧ RangeOrder.Valid id
      ∧ (SearchProducts (GetDB .perIteration bootWorld) List.reverse "").Perm
          (GetAllProducts (GetDB .perIteration bootWorld) id) :=
  ⟨RangeOrder.valid_reverse, RangeOrder.valid_id,
    C7_empty_filter (GetDB .perIteration bootWorld) List.reverse id RangeOrder.valid_reverse
      RangeOrder.valid_id⟩

/-! ## C8: update and the price -/

theorem Float64.gtZero_of_leZero (x : Float64) (h : x.leZero = true) : x.gtZero = false := by
  cases x with
  | nan => rfl
  | inf negative => simpa [Float64.leZero, Float64.gtZero] using h
  | finite q =>
    have hq : q ≤ 0 := by simpa [Float64.leZero] using h
    simpa [Float64.gtZero] using hq

/-- C8. Update ignores a non-positive price: for every existing product and every
update request whose price is zero or negative, `UpdateProduct` succeeds and
leaves the stored price unchanged; for every request whose price is strictly
positive it succeeds and the stored price becomes that value. -/
theorem C8_update_price_policy (w : World) (id : Int) (product : Addr)
    (updates : UpdateProductRequest) (hfound : w.db.products.lookup id = some product) :
    (UpdateProduct w id updates).2 = (some product, true)
      ∧ (updates.Price.leZero = true →
          ((UpdateProduct w id updates).1.mem product).Price = (w.mem product).Price)
      ∧ (updates.Price.gtZero = true →
          ((UpdateProduct w id updates).1.mem product).Price = updates.Price) := by
  rw [UpdateProduct_mem_self w id updates product hfound]
  refine ⟨UpdateProduct_found w id updates product hfound, ?_, ?_⟩
  · intro h
    simp [Float64.gtZero_of_leZero _ h]
  · intro h
    simp [h]

/-- C8 in the scenario store (stored price 10): price 0 and price -5 leave the
price at 10, price 20 sets it to 20. -/
theorem C8_update_price_policy_witness :
    scenarioWorld.db.products.lookup 1 = some 0
      ∧ ((UpdateProduct scenarioWorld 1 { priceOnlyRequest with Price := .finite 0 }).1.mem 0).Price
          = .finite 10
      ∧ ((UpdateProduct scenarioWorld 1
            { priceOnlyRequest with Price := .finite (-5) }).1.mem 0).Price = .finite 10
      ∧ ((UpdateProduct scenarioWorld 1 priceOnlyRequest).1.mem 0).Price = .finite 20 :=
  ⟨by decide,
    (C8_update_price_policy scenarioWorld 1 0 { priceOnlyRequest with Price := .finite 0 }
      (by decide)).2.1 (by decide),
    (C8_update_price_policy scenarioWorld 1 0 { priceOnlyRequest with Price := .finite (-5) }
      (by decide)).2.1 (by decide),
    (C8_update_price_policy scenarioWorld 1 0 priceOnlyRequest (by decide)).2.2 (by decide)⟩

/-! ## C9: update and the stock -/

/-- C9. Update stock policy: for every existing product and every update request
the update succeeds; if the request's stock `s` is greater than or equal to zero
the stored stock becomes exactly `s` (so stock 0 sets the stored stock to 0), and
if `s` is negative the stored stock is left unchanged. -/
theorem C9_update_stock_policy (w : World) (id : Int) (product : Addr)
    (updates : UpdateProductRequest) (hfound : w.db.products.lookup id = some product) :
    (UpdateProduct w id updates).2 = (some product, true)
      ∧ (0 ≤ updates.Stock →
          ((UpdateProduct w id updates).1.mem product).Stock = updates.Stock)
      ∧ (updates.Stock < 0 →
          ((UpdateProduct w id updates).1.mem product).Stock = (w.mem product).Stock) := by
  rw [UpdateProduct_mem_self w id updates product hfound]
  refine ⟨UpdateProduct_found w id updates product hfound, ?_, ?_⟩
  · intro h
    simp [h]
  · intro h
    simp [not_le.mpr h]

/-- C9 in the scenario store (stored stock 5): stock 0 sets the stock to 0, stock
-3 leaves it at 5. -/
theorem C9_update_stock_policy_witness :
    scenarioWorld.db.products.lookup 1 = some 0
      ∧ ((UpdateProduct scenarioWorld 1 priceOnlyRequest).1.mem 0).Stock = 0
      ∧ ((UpdateProduct scenarioWorld 1 { priceOnlyRequest with Stock := -3 }).1.mem 0).Stock
          = 5 :=
  ⟨by decide,
    (C9_update_stock_policy scenarioWorld 1 0 priceOnlyRequest (by decide)).2.1 (by decide),
    (C9_update_stock_policy scenarioWorld 1 0 { priceOnlyRequest with Stock := -3 }
      (by decide)).2.2 (by decide)⟩

/-! ## C10: timestamps at creation -/

/-- C10, counterexample. In the scenario store, whose clock reads 1, 2, 3, ..., a
draft is allocated and created: the returned product, which is the stored one, has
createdAt 1 and updatedAt 2. -/
theorem C10_counterexample :
    GetProduct (CreateProduct (scenarioWorld.new draftProduct).1 1).1 2 = (some 1, true)
      ∧ (CreateProduct (scenarioWorld.new draftProduct).1 1).2 = 1
      ∧ ((CreateProduct (scenarioWorld.new draftProduct).1 1).1.mem 1).CreatedAt = 1
      ∧ ((CreateProduct (scenarioWorld.new draftProduct).1 1).1.mem 1).UpdatedAt = 2
      ∧ ((CreateProduct (scenarioWorld.new draftProduct).1 1).1.mem 1).CreatedAt
          ≠ ((CreateProduct (scenarioWorld.new draftProduct).1 1).1.mem 1).UpdatedAt := by
  decide

/-- C10, amended. For every `CreateProduct` call the returned product is the one
stored under the new id; its createdAt is the first clock reading taken during
the call and its updatedAt the second; so the two are equal exactly when the two
readings are equal, and createdAt is not later than updatedAt when the second
reading is not earlier than the first. -/
theorem C10_creation_timestamps (w : World) (product : Addr) :
    (CreateProduct w product).1.db.products.lookup w.db.nextID
        = some (CreateProduct w product).2
      ∧ ((CreateProduct w product).1.mem (CreateProduct w product).2).CreatedAt
          = w.clock w.ticks
      ∧ ((CreateProduct w product).1.mem (CreateProduct w product).2).UpdatedAt
          = w.clock (w.ticks + 1)
      ∧ (((CreateProduct w product).1.mem (CreateProduct w product).2).CreatedAt
            = ((CreateProduct w product).1.mem (CreateProduct w product).2).UpdatedAt
          ↔ w.clock w.ticks = w.clock (w.ticks + 1))
      ∧ (w.clock w.ticks ≤ w.clock (w.ticks + 1) →
          ((CreateProduct w product).1.mem (CreateProduct w product).2).CreatedAt
            ≤ ((CreateProduct w product).1.mem (CreateProduct w product).2).UpdatedAt) := by
  rw [CreateProduct_ptr, CreateProduct_mem_self, CreateProduct_products, AList.lookup_insert]
  exact ⟨rfl, rfl, rfl, Iff.rfl, fun h => h⟩

/-- C10, amended, at the draft created in the scenario store: createdAt 1 is not
later than updatedAt 2. -/
theorem C10_creation_timestamps_witness :
    (scenarioWorld.new draftProduct).1.clock (scenarioWorld.new draftProduct).1.ticks
        ≤ (scenarioWorld.new draftProduct).1.clock ((scenarioWorld.new draftProduct).1.ticks + 1)
      ∧ ((CreateProduct (scenarioWorld.new draftProduct).1 1).1.mem
            (CreateProduct (scenarioWorld.new draftProduct).1 1).2).CreatedAt
          ≤ ((CreateProduct (scenarioWorld.new draftProduct).1 1).1.mem
            (CreateProduct (scenarioWorld.new draftProduct).1 1).2).UpdatedAt :=
  ⟨by decide,
    (C10_creation_timestamps (scenarioWorld.new draftProduct).1 1).2.2.2.2 (by decide)⟩

/-! ## Timestamps of the reachable states -/

theorem CreateProduct_ticks (w : World) (product : Addr) :
    (CreateProduct w product).1.ticks = w.ticks + 2 := rfl

theorem CreateProduct_clock (w : World) (product : Addr) :
    (CreateProduct w product).1.clock = w.clock := rfl

theorem World.ite_modify_db (c : Prop) [Decidable c] (w : World) (a : Addr)
    (f : Product → Product) : (if c then w.modify a f else w).db = w.db := by
  split <;> rfl

theorem World.ite_modify_clock (c : Prop) [Decidable c] (w : World) (a : Addr)
    (f : Product → Product) : (if c then w.modify a f else w).clock = w.clock := by
  split <;> rfl

theorem World.ite_modify_ticks (c : Prop) [Decidable c] (w : World) (a : Addr)
    (f : Product → Product) : (if c then w.modify a f else w).ticks = w.ticks := by
  split <;> rfl

theorem UpdateProduct_db (w : World) (id : Int) (updates : UpdateProductRequest) :
    (UpdateProduct w id updates).1.db = w.db := by
  unfold UpdateProduct
  cases w.db.products.lookup id with
  | none => rfl
  | some product =>
    simp only [World.tick_db, World.modify_db, World.ite_modify_db]

theorem UpdateProduct_clock (w : World) (id : Int) (updates : UpdateProductRequest) :
    (UpdateProduct w id updates).1.clock = w.clock := by
  unfold UpdateProduct
  cases w.db.products.lookup id with
  | none => rfl
  | some product =>
    simp only [World.tick_clock, World.modify_clock, World.ite_modify_clock]

theorem UpdateProduct_ticks (w : World) (id : Int) (updates : UpdateProductRequest) (a : Addr)
    (h : w.db.products.lookup id = some a) :
    (UpdateProduct w id updates).1.ticks = w.ticks + 1 := by
  unfold UpdateProduct
  rw [h]
  simp only [World.tick_ticks, World.modify_ticks, World.ite_modify_ticks]

theorem DeleteProduct_mem (w : World) (id : Int) : (DeleteProduct w id).1.mem = w.mem := by
  unfold DeleteProduct
  cases w.db.products.lookup id <;> rfl

theorem DeleteProduct_clock (w : World) (id : Int) :
    (DeleteProduct w id).1.clock = w.clock := by
  unfold DeleteProduct
  cases w.db.products.lookup id <;> rfl

theorem DeleteProduct_ticks (w : World) (id : Int) :
    (DeleteProduct w id).1.ticks = w.ticks := by
  unfold DeleteProduct
  cases w.db.products.lookup id <;> rfl

theorem DeleteProduct_lookup (w : World) (id k : Int) (a : Addr)
    (h : (DeleteProduct w id).1.db.products.lookup k = some a) :
    k ≠ id ∧ w.db.products.lookup k = some a := by
  unfold DeleteProduct at h
  cases hl : w.db.products.lookup id with
  | none =>
    rw [hl] at h
    refine ⟨?_, h⟩
    rintro rfl
    rw [hl] at h
    exact Option.noConfusion h
  | some b =>
    rw [hl] at h
    have hk : k ≠ id := by
      rintro rfl
      have : (w.db.products.erase k).lookup k = none := AList.lookup_erase k _
      rw [this] at h
      exact Option.noConfusion h
    exact ⟨hk, by rwa [AList.lookup_erase_ne hk] at h⟩

theorem stamped_create_after_write (w w' : World) (a : Addr) (h : Stamped w)
    (hdb : w'.db = w.db) (hclock : w'.clock = w.clock) (hticks : w'.ticks = w.ticks)
    (hmem : ∀ b, b ≠ a → w'.mem b = w.mem b) : Stamped (CreateProduct w' a).1 := by
  intro k b hk
  rw [CreateProduct_ticks, CreateProduct_clock]
  by_cases hb : b = a
  · subst hb
    rw [CreateProduct_mem_self]
    exact ⟨w'.ticks, w'.ticks + 1, by omega, by omega, rfl, rfl⟩
  · rw [CreateProduct_mem_other w' a b hb, hmem b hb]
    rw [CreateProduct_products] at hk
    have hne : k ≠ w'.db.nextID := by
      rintro rfl
      rw [AList.lookup_insert] at hk
      exact hb (Option.some.inj hk).symm
    rw [AList.lookup_insert_ne hne, hdb] at hk
    obtain ⟨i, j, hij, hj, hc, hu⟩ := h k b hk
    exact ⟨i, j, hij, by omega, by rw [hclock]; exact hc, by rw [hclock]; exact hu⟩

theorem stamped_create (w : World) (a : Addr) (h : Stamped w) : Stamped (CreateProduct w a).1 :=
  stamped_create_after_write w w a h rfl rfl rfl (fun _ _ => rfl)

theorem stamped_update (w : World) (id : Int) (updates : UpdateProductRequest) (h : Stamped w) :
    Stamped (UpdateProduct w id updates).1 := by
  cases hl : w.db.products.lookup id with
  | none => rw [UpdateProduct_not_found w id updates hl]; exact h
  | some a =>
    intro k b hk
    rw [UpdateProduct_db] at hk
    rw [UpdateProduct_clock, UpdateProduct_ticks w id updates a hl]
    by_cases hb : b = a
    · subst hb
      rw [UpdateProduct_mem_self w id updates b hl]
      obtain ⟨i, j, hij, hj, hc, _⟩ := h k b hk
      exact ⟨i, w.ticks, by omega, by omega, hc, rfl⟩
    · rw [UpdateProduct_mem_other w id updates a b hl hb]
      obtain ⟨i, j, hij, hj, hc, hu⟩ := h k b hk
      exact ⟨i, j, hij, by omega, hc, hu⟩

theorem stamped_delete (w : World) (id : Int) (h : Stamped w) :
    Stamped (DeleteProduct w id).1 := by
  intro k b hk
  rw [DeleteProduct_mem, DeleteProduct_clock, DeleteProduct_ticks]
  exact h k b (DeleteProduct_lookup w id k b hk).2

theorem stamped_run (w : World) (c : Call) (h : Stamped w) : Stamped (c.run w) := by
  cases c with
  | create product => exact stamped_create w product h
  | update id updates => exact stamped_update w id updates h
  | delete id => exact stamped_delete w id h
  | get id => exact h
  | list order => exact h
  | search order category => exact h

theorem stamped_runCalls (cs : List Call) : ∀ w : World, Stamped w → Stamped (runCalls w cs) := by
  induction cs with
  | nil => intro w h; exact h
  | cons c cs ih => intro w h; exact ih (c.run w) (stamped_run w c h)

theorem Call.run_clock (w : World) (c : Call) : (c.run w).clock = w.clock := by
  cases c with
  | create product => rfl
  | update id updates => exact UpdateProduct_clock w id updates
  | delete id => exact DeleteProduct_clock w id
  | get id => rfl
  | list order => rfl
  | search order category => rfl

theorem runCalls_clock (cs : List Call) : ∀ w : World, (runCalls w cs).clock = w.clock := by
  induction cs with
  | nil => intro w; rfl
  | cons c cs ih => intro w; exact (ih (c.run w)).trans (Call.run_clock w c)

theorem seedData_stamped_clock (sem : LoopVar) (w : World) (h : w.db.products = ∅) :
    Stamped (seedData sem w) ∧ (seedData sem w).clock = w.clock := by
  have hw : Stamped w := by
    intro k a hk
    rw [h, AList.lookup_empty] at hk
    exact Option.noConfusion hk
  cases sem with
  | perIteration =>
    have key : ∀ (l : List Product) (v : World), Stamped v →
        Stamped (l.foldl (fun w p => (CreateProduct (w.new p).1 (w.new p).2).1) v)
          ∧ (l.foldl (fun w p => (CreateProduct (w.new p).1 (w.new p).2).1) v).clock
              = v.clock := by
      intro l
      induction l with
      | nil => intro v hv; exact ⟨hv, rfl⟩
      | cons p ps ih =>
        intro v hv
        have hstep : Stamped (CreateProduct (v.new p).1 (v.new p).2).1 := by
          refine stamped_create_after_write v (v.new p).1 (v.new p).2 hv rfl rfl rfl ?_
          intro b hb
          have hb' : ¬ b = v.brk := hb
          simp [World.new, hb']
        exact ⟨(ih _ hstep).1, (ih _ hstep).2⟩
    exact key sampleProducts w hw
  | perLoop =>
    have key : ∀ (l : List Product) (a : Addr) (v : World), Stamped v →
        Stamped (l.foldl (fun w p => (CreateProduct (w.modify a (fun _ => p)) a).1) v)
          ∧ (l.foldl (fun w p => (CreateProduct (w.modify a (fun _ => p)) a).1) v).clock
              = v.clock := by
      intro l a
      induction l with
      | nil => intro v hv; exact ⟨hv, rfl⟩
      | cons p ps ih =>
        intro v hv
        have hstep : Stamped (CreateProduct (v.modify a (fun _ => p)) a).1 := by
          refine stamped_create_after_write v _ a hv rfl rfl rfl ?_
          intro b hb
          simp [hb]
        exact ⟨(ih _ hstep).1, (ih _ hstep).2⟩
    have hnew : Stamped (w.new default).1 := by
      intro k b hk
      have hk' : w.db.products.lookup k = some b := hk
      rw [h, AList.lookup_empty] at hk'
      exact Option.noConfusion hk'
    exact key sampleProducts (w.new default).2 (w.new default).1 hnew

theorem GetDB_first (sem : LoopVar) (w : World) (h : w.onceDone = false) :
    GetDB sem w = { seedData sem { w with db := newDB } with onceDone := true } := by
  simp [GetDB, h]

theorem stamped_setOnce (v : World) (h : Stamped v) : Stamped { v with onceDone := true } := h

theorem GetDB_stamped_clock (sem : LoopVar) (w : World) (h : w.onceDone = false) :
    Stamped (GetDB sem w) ∧ (GetDB sem w).clock = w.clock := by
  have hs := seedData_stamped_clock sem { w with db := newDB } rfl
  rw [GetDB_first sem w h]
  exact ⟨stamped_setOnce _ hs.1, hs.2⟩

theorem reachable_stamped (sem : LoopVar) (w : World) (cs : List Call)
    (h : w.onceDone = false) :
    Stamped (runCalls (GetDB sem w) cs) ∧ (runCalls (GetDB sem w) cs).clock = w.clock :=
  ⟨stamped_runCalls cs _ (GetDB_stamped_clock sem w h).1,
    (runCalls_clock cs _).trans (GetDB_stamped_clock sem w h).2⟩

theorem bootWorld_clock_strictMono : StrictMono bootWorld.clock :=
  fun _ _ h => Int.ofNat_lt.mpr h

/-! ## C11: timestamp invariant -/

/-- C11. Timestamp invariant: when the clock read by the store never goes
backwards, in every state reached from the initialised store (`GetDB` on first
use, for either scope of the seeding loop variable) by any sequence of store
calls, every stored product has updatedAt >= createdAt. -/
theorem C11_timestamp_invariant (sem : LoopVar) (w : World) (cs : List Call)
    (hw : w.onceDone = false) (hclock : Monotone w.clock) (id : Int) (product : Addr)
    (hstored : (runCalls (GetDB sem w) cs).db.products.lookup id = some product) :
    ((runCalls (GetDB sem w) cs).mem product).CreatedAt
      ≤ ((runCalls (GetDB sem w) cs).mem product).UpdatedAt := by
  obtain ⟨hst, hc⟩ := reachable_stamped sem w cs hw
  obtain ⟨i, j, hij, _, hcr, hup⟩ := hst id product hstored
  rw [hcr, hup, hc]
  exact hclock hij

/-- C11 after the store was seeded with one loop variable, then one create, one
update and one delete: the record under id 1. -/
theorem C11_timestamp_invariant_witness :
    bootWorld.onceDone = false ∧ Monotone bootWorld.clock
      ∧ (runCalls (GetDB .perLoop bootWorld)
            [.create 5, .update 1 priceOnlyRequest, .delete 2]).db.products.lookup 1 = some 0
      ∧ ((runCalls (GetDB .perLoop bootWorld)
            [.create 5, .update 1 priceOnlyRequest, .delete 2]).mem 0).CreatedAt
          ≤ ((runCalls (GetDB .perLoop bootWorld)
            [.create 5, .update 1 priceOnlyRequest, .delete 2]).mem 0).UpdatedAt :=
  ⟨rfl, bootWorld_clock_strictMono.monotone, by decide,
    C11_timestamp_invariant .perLoop bootWorld [.create 5, .update 1 priceOnlyRequest, .delete 2]
      rfl bootWorld_clock_strictMono.monotone 1 0 (by decide)⟩

/-! ## C12: update frame -/

theorem keyed_other_pointer (w : World) (h : Keyed w) (id other : Int) (a b : Addr)
    (ha : w.db.products.lookup id = some a) (hb : w.db.products.lookup other = some b)
    (hne : other ≠ id) : b ≠ a := by
  rintro rfl
  exact hne ((h other b hb).symm.trans (h id b ha))

/-- C12, counterexample. In the state where ids 4 and 5 hold the same pointer, a
successful `UpdateProduct(4, u)` whose request supplies the name "Q" changes the
record stored under the other id 5: its name was "Y" and is "Q" afterwards. -/
theorem C12_counterexample :
    sharedWorld.db.products.lookup 4 = some 3
      ∧ sharedWorld.db.products.lookup 5 = some 3
      ∧ (UpdateProduct sharedWorld 4 nameOnlyRequest).2 = (some 3, true)
      ∧ GetProduct (UpdateProduct sharedWorld 4 nameOnlyRequest).1 5 = (some 3, true)
      ∧ (sharedWorld.mem 3).Name = "Y"
      ∧ ((UpdateProduct sharedWorld 4 nameOnlyRequest).1.mem 3).Name = "Q" := by
  decide

/-- C12, amended. Update frame: for every successful `UpdateProduct(id, u)` the
updated product's id and createdAt are the same as before the call; name,
description, price, stock and category are unchanged unless the request supplies
them (text not empty, price above zero, stock not negative); the record stored
under any other id is unchanged provided it is not the updated record itself, that
is, the other id does not hold the same pointer, as is the case for all other ids
when every stored record carries its key as ID; no other address in memory is
written; the map and the identifier counter are unchanged. -/
theorem C12_update_frame (w : World) (id : Int) (product : Addr)
    (updates : UpdateProductRequest) (hfound : w.db.products.lookup id = some product) :
    (UpdateProduct w id updates).2 = (some product, true)
      ∧ ((UpdateProduct w id updates).1.mem product).ID = (w.mem product).ID
      ∧ ((UpdateProduct w id updates).1.mem product).CreatedAt = (w.mem product).CreatedAt
      ∧ (updates.Name = "" →
          ((UpdateProduct w id updates).1.mem product).Name = (w.mem product).Name)
      ∧ (updates.Description = "" →
          ((UpdateProduct w id updates).1.mem product).Description
            = (w.mem product).Description)
      ∧ (updates.Price.gtZero = false →
          ((UpdateProduct w id updates).1.mem product).Price = (w.mem product).Price)
      ∧ (updates.Stock < 0 →
          ((UpdateProduct w id updates).1.mem product).Stock = (w.mem product).Stock)
      ∧ (updates.Category = "" →
          ((UpdateProduct w id updates).1.mem product).Category = (w.mem product).Category)
      ∧ (∀ (other : Int) (record : Addr), other ≠ id →
          w.db.products.lookup other = some record → record ≠ product →
          (UpdateProduct w id updates).1.mem record = w.mem record)
      ∧ (Keyed w → ∀ (other : Int) (record : Addr), other ≠ id →
          w.db.products.lookup other = some record →
          (UpdateProduct w id updates).1.mem record = w.mem record)
      ∧ (∀ address : Addr, address ≠ product →
          (UpdateProduct w id updates).1.mem address = w.mem address)
      ∧ (UpdateProduct w id updates).1.db.products = w.db.products
      ∧ (UpdateProduct w id updates).1.db.nextID = w.db.nextID := by
  have hother : ∀ address : Addr, address ≠ product →
      (UpdateProduct w id updates).1.mem address = w.mem address :=
    fun address h => UpdateProduct_mem_other w id updates product address hfound h
  rw [UpdateProduct_mem_self w id updates product hfound, UpdateProduct_db]
  refine ⟨UpdateProduct_found w id updates product hfound, rfl, rfl, ?_, ?_, ?_, ?_, ?_,
    fun other record _ _ h => hother record h,
    fun hk other record hne hrec =>
      hother record (keyed_other_pointer w hk id other product record hfound hrec hne),
    hother, rfl, rfl⟩
  · intro h; simp [h]
  · intro h; simp [h]
  · intro h; simp [h]
  · intro h; simp [not_le.mpr h]
  · intro h; simp [h]

/-- C12, amended, in the seeded store, updating id 1 with the price-only request:
id, createdAt, name and counter are as before, and the record stored under id 2,
which holds another pointer, is unchanged. -/
theorem C12_update_frame_witness :
    seededWorld.db.products.lookup 1 = some 0
      ∧ ((UpdateProduct seededWorld 1 priceOnlyRequest).1.mem 0).ID = (seededWorld.mem 0).ID
      ∧ ((UpdateProduct seededWorld 1 priceOnlyRequest).1.mem 0).CreatedAt
          = (seededWorld.mem 0).CreatedAt
      ∧ ((UpdateProduct seededWorld 1 priceOnlyRequest).1.mem 0).Name
          = (seededWorld.mem 0).Name
      ∧ (UpdateProduct seededWorld 1 priceOnlyRequest).1.mem 1 = seededWorld.mem 1
      ∧ (UpdateProduct seededWorld 1 priceOnlyRequest).1.db.nextID = seededWorld.db.nextID :=
  ⟨by decide, (C12_update_frame seededWorld 1 0 priceOnlyRequest (by decide)).2.1,
    (C12_update_frame seededWorld 1 0 priceOnlyRequest (by decide)).2.2.1,
    (C12_update_frame seededWorld 1 0 priceOnlyRequest (by decide)).2.2.2.1 (by decide),
    (C12_update_frame seededWorld 1 0 priceOnlyRequest (by decide)).2.2.2.2.2.2.2.2.1 2 1
      (by decide) (by decide) (by decide),
    (C12_update_frame seededWorld 1 0 priceOnlyRequest
      (by decide)).2.2.2.2.2.2.2.2.2.2.2.2⟩

/-! ## C13: updatedAt refresh -/

/-- C13. The updatedAt refresh: in every state reached from the initialised store
by a sequence of store calls, every `UpdateProduct` call on a stored id, whatever
the request supplies, succeeds and leaves in updatedAt the clock reading taken
during the call; if the clock never goes backwards this is not earlier than the
previous updatedAt, and if every reading is later than the one before, it is
strictly greater than before. -/
theorem C13_updatedAt_refresh (sem : LoopVar) (w : World) (cs : List Call)
    (hw : w.onceDone = false) (id : Int) (product : Addr) (updates : UpdateProductRequest)
    (hfound : (runCalls (GetDB sem w) cs).db.products.lookup id = some product) :
    (UpdateProduct (runCalls (GetDB sem w) cs) id updates).2 = (some product, true)
      ∧ ((UpdateProduct (runCalls (GetDB sem w) cs) id updates).1.mem product).UpdatedAt
          = (runCalls (GetDB sem w) cs).now
      ∧ (Monotone w.clock →
          ((runCalls (GetDB sem w) cs).mem product).UpdatedAt
            ≤ ((UpdateProduct (runCalls (GetDB sem w) cs) id updates).1.mem product).UpdatedAt)
      ∧ (StrictMono w.clock →
          ((runCalls (GetDB sem w) cs).mem product).UpdatedAt
            < ((UpdateProduct (runCalls (GetDB sem w) cs) id updates).1.mem product).UpdatedAt) := by
  obtain ⟨hst, hc⟩ := reachable_stamped sem w cs hw
  obtain ⟨i, j, _, hj, _, hup⟩ := hst id product hfound
  rw [UpdateProduct_mem_self _ id updates product hfound]
  refine ⟨UpdateProduct_found _ id updates product hfound, rfl, ?_, ?_⟩
  · intro hmono
    show _ ≤ (runCalls (GetDB sem w) cs).clock (runCalls (GetDB sem w) cs).ticks
    rw [hup, hc]
    exact hmono (le_of_lt hj)
  · intro hmono
    show _ < (runCalls (GetDB sem w) cs).clock (runCalls (GetDB sem w) cs).ticks
    rw [hup, hc]
    exact hmono hj

/-- C13 in the seeded store, whose clock reads 0, 1, 2, ...: updating the product
with id 1 makes its updatedAt strictly greater. -/
theorem C13_updatedAt_refresh_witness :
    bootWorld.onceDone = false
      ∧ (runCalls (GetDB .perIteration bootWorld) []).db.products.lookup 1 = some 0
      ∧ StrictMono bootWorld.clock
      ∧ ((runCalls (GetDB .perIteration bootWorld) []).mem 0).UpdatedAt
          < ((UpdateProduct (runCalls (GetDB .perIteration bootWorld) []) 1
              priceOnlyRequest).1.mem 0).UpdatedAt :=
  ⟨rfl, by decide, bootWorld_clock_strictMono,
    (C13_updatedAt_refresh .perIteration bootWorld [] rfl 1 0 priceOnlyRequest
      (by decide)).2.2.2 bootWorld_clock_strictMono⟩

/-! ## C14: not found -/

/-- C14. Not-found is a clean result: for every state and every id that is not
stored, `GetProduct` returns `(nil, false)`, `UpdateProduct` returns
`(nil, false)` for every request and `DeleteProduct` returns false; the state
after the call is the state before it: records, map, counter and clock. -/
theorem C14_not_found_is_clean (w : World) (id : Int) (updates : UpdateProductRequest)
    (hmissing : w.db.products.lookup id = none) :
    GetProduct w id = (none, false)
      ∧ UpdateProduct w id updates = (w, none, false)
      ∧ DeleteProduct w id = (w, false) :=
  ⟨GetProduct_not_found w id hmissing, UpdateProduct_not_found w id updates hmissing,
    DeleteProduct_not_found w id hmissing⟩

/-- C14 in the scenario store, where id 9 is not stored. -/
theorem C14_not_found_is_clean_witness :
    scenarioWorld.db.products.lookup 9 = none
      ∧ GetProduct scenarioWorld 9 = (none, false)
      ∧ UpdateProduct scenarioWorld 9 priceOnlyRequest = (scenarioWorld, none, false)
      ∧ DeleteProduct scenarioWorld 9 = (scenarioWorld, false) :=
  ⟨by decide, C14_not_found_is_clean scenarioWorld 9 priceOnlyRequest (by decide)⟩

/-! ## The counter is above every stored key -/

theorem keysBelow_create_after_write (w w' : World) (a : Addr) (h : KeysBelow w)
    (hdb : w'.db = w.db) (hlo : 1 ≤ w.db.nextID) (hhi : w.db.nextID < maxInt) :
    KeysBelow (CreateProduct w' a).1
      ∧ (CreateProduct w' a).1.db.nextID = w.db.nextID + 1 := by
  have hn : (CreateProduct w' a).1.db.nextID = w.db.nextID + 1 := by
    rw [CreateProduct_nextID, hdb]
    exact wrapInt_succ_of_lt _ hlo hhi
  refine ⟨?_, hn⟩
  intro k b hk
  rw [hn]
  rw [CreateProduct_products] at hk
  by_cases hkn : k = w'.db.nextID
  · rw [hkn, hdb]; omega
  · rw [AList.lookup_insert_ne hkn, hdb] at hk
    have := h k b hk
    omega

theorem keysBelow_update (w : World) (id : Int) (updates : UpdateProductRequest)
    (h : KeysBelow w) : KeysBelow (UpdateProduct w id updates).1 := by
  intro k b hk
  rw [UpdateProduct_db] at hk ⊢
  exact h k b hk

theorem keysBelow_delete (w : World) (id : Int) (h : KeysBelow w) :
    KeysBelow (DeleteProduct w id).1 := by
  intro k b hk
  rw [DeleteProduct_nextID]
  exact h k b (DeleteProduct_lookup w id k b hk).2

theorem keysBelow_runCalls (cs : List Call) : ∀ w : World, KeysBelow w → 1 ≤ w.db.nextID →
    w.db.nextID + ((numCreates cs : Nat) : Int) ≤ maxInt → KeysBelow (runCalls w cs) := by
  induction cs with
  | nil => intro w h _ _; exact h
  | cons c cs ih =>
    intro w h hlo hhi
    cases c with
    | create product =>
      have hhi' : w.db.nextID + (((numCreates cs : Nat) : Int) + 1) ≤ maxInt := by
        simpa [numCreates] using hhi
      obtain ⟨hk, hn⟩ := keysBelow_create_after_write w w product h rfl hlo (by omega)
      exact ih (CreateProduct w product).1 hk (by rw [hn]; omega) (by rw [hn]; omega)
    | update id updates =>
      exact ih (UpdateProduct w id updates).1 (keysBelow_update w id updates h)
        (by rw [UpdateProduct_nextID]; exact hlo) (by rw [UpdateProduct_nextID]; exact hhi)
    | delete id =>
      exact ih (DeleteProduct w id).1 (keysBelow_delete w id h)
        (by rw [DeleteProduct_nextID]; exact hlo) (by rw [DeleteProduct_nextID]; exact hhi)
    | get id => exact ih w h hlo hhi
    | list order => exact ih w h hlo hhi
    | search order category => exact ih w h hlo hhi

theorem seedData_keysBelow (sem : LoopVar) (w : World) (h : KeysBelow w)
    (hn : w.db.nextID = 1) :
    KeysBelow (seedData sem w) ∧ (seedData sem w).db.nextID = 4 := by
  have hmax : (1 : Int) + ((sampleProducts.length : Nat) : Int) ≤ maxInt := by decide
  have hlen : (1 : Int) + ((sampleProducts.length : Nat) : Int) = 4 := by decide
  cases sem with
  | perIteration =>
    have key : ∀ (l : List Product) (v : World), KeysBelow v → 1 ≤ v.db.nextID →
        v.db.nextID + ((l.length : Nat) : Int) ≤ maxInt →
        KeysBelow (l.foldl (fun w p => (CreateProduct (w.new p).1 (w.new p).2).1) v)
          ∧ (l.foldl (fun w p => (CreateProduct (w.new p).1 (w.new p).2).1) v).db.nextID
              = v.db.nextID + ((l.length : Nat) : Int) := by
      intro l
      induction l with
      | nil => intro v hv _ _; exact ⟨hv, by simp⟩
      | cons p ps ih =>
        intro v hv hlo hhi
        have hhi' : v.db.nextID + (((ps.length : Nat) : Int) + 1) ≤ maxInt := by
          simpa using hhi
        obtain ⟨hk, hs⟩ :=
          keysBelow_create_after_write v (v.new p).1 (v.new p).2 hv rfl hlo (by omega)
        obtain ⟨h1, h2⟩ := ih _ hk (by rw [hs]; omega) (by rw [hs]; omega)
        refine ⟨h1, ?_⟩
        rw [List.foldl_cons, h2, hs, List.length_cons]
        push_cast
        ring
    have r := key sampleProducts w h (by rw [hn]) (by rw [hn]; exact hmax)
    have r2 : (seedData .perIteration w).db.nextID
        = w.db.nextID + ((sampleProducts.length : Nat) : Int) := r.2
    rw [hn] at r2
    exact ⟨r.1, r2.trans hlen⟩
  | perLoop =>
    have key : ∀ (l : List Product) (a : Addr) (v : World), KeysBelow v → 1 ≤ v.db.nextID →
        v.db.nextID + ((l.length : Nat) : Int) ≤ maxInt →
        KeysBelow (l.foldl (fun w p => (CreateProduct (w.modify a (fun _ => p)) a).1) v)
          ∧ (l.foldl (fun w p => (CreateProduct (w.modify a (fun _ => p)) a).1) v).db.nextID
              = v.db.nextID + ((l.length : Nat) : Int) := by
      intro l a
      induction l with
      | nil => intro v hv _ _; exact ⟨hv, by simp⟩
      | cons p ps ih =>
        intro v hv hlo hhi
        have hhi' : v.db.nextID + (((ps.length : Nat) : Int) + 1) ≤ maxInt := by
          simpa using hhi
        obtain ⟨hk, hs⟩ :=
          keysBelow_create_after_write v (v.modify a (fun _ => p)) a hv rfl hlo (by omega)
        obtain ⟨h1, h2⟩ := ih _ hk (by rw [hs]; omega) (by rw [hs]; omega)
        refine ⟨h1, ?_⟩
        rw [List.foldl_cons, h2, hs, List.length_cons]
        push_cast
        ring
    have r := key sampleProducts (w.new default).2 (w.new default).1 h
      (by show 1 ≤ w.db.nextID; rw [hn]) (by show w.db.nextID + _ ≤ maxInt; rw [hn]; exact hmax)
    refine ⟨r.1, ?_⟩
    have r2 := r.2
    rw [show (w.new default).1.db.nextID = w.db.nextID from rfl, hn] at r2
    exact r2.trans hlen

theorem GetDB_keysBelow (sem : LoopVar) (w : World) (h : w.onceDone = false) :
    KeysBelow (GetDB sem w) ∧ (GetDB sem w).db.nextID = 4 := by
  have h0 : KeysBelow { w with db := newDB } := by
    intro k a hk
    have hk' : (∅ : ProductMap).lookup k = some a := hk
    rw [AList.lookup_empty] at hk'
    exact Option.noConfusion hk'
  have hs := seedData_keysBelow sem { w with db := newDB } h0 rfl
  rw [GetDB_first sem w h]
  exact hs

/-- In every state reached from the initialised store by store calls, whatever
pointers the calls are given, every stored key is below the identifier counter, as
long as the counter has not wrapped around: it is 4 after the seeding and is
incremented once per create. -/
theorem reachable_keysBelow (sem : LoopVar) (w : World) (cs : List Call)
    (h : w.onceDone = false) (hbound : ((numCreates cs : Nat) : Int) + 4 ≤ maxInt) :
    KeysBelow (runCalls (GetDB sem w) cs) := by
  obtain ⟨hk, hn⟩ := GetDB_keysBelow sem w h
  exact keysBelow_runCalls cs _ hk (by rw [hn]; decide) (by rw [hn]; omega)

theorem runCalls_append (cs ds : List Call) (w : World) :
    runCalls w (cs ++ ds) = runCalls (runCalls w cs) ds := by
  unfold runCalls
  rw [List.foldl_append]

theorem runCalls_nextID (cs : List Call) : ∀ w : World, wrapInt w.db.nextID = w.db.nextID →
    (runCalls w cs).db.nextID = wrapInt (w.db.nextID + ((numCreates cs : Nat) : Int)) := by
  induction cs with
  | nil => intro w hw; simpa [runCalls, numCreates] using hw.symm
  | cons c cs ih =>
    intro w hw
    cases c with
    | create product =>
      show (runCalls (CreateProduct w product).1 cs).db.nextID = _
      rw [ih _ (wrapInt_wrapInt _), CreateProduct_nextID, wrapInt_add_wrapInt]
      congr 1
      simp only [numCreates]
      push_cast
      ring
    | update id updates =>
      show (runCalls (UpdateProduct w id updates).1 cs).db.nextID = _
      rw [ih _ (by rw [UpdateProduct_nextID]; exact hw), UpdateProduct_nextID]
      rfl
    | delete id =>
      show (runCalls (DeleteProduct w id).1 cs).db.nextID = _
      rw [ih _ (by rw [DeleteProduct_nextID]; exact hw), DeleteProduct_nextID]
      rfl
    | get id => exact ih w hw
    | list order => exact ih w hw
    | search order category => exact ih w hw

/-! ## Keys and ids of the reachable states -/

theorem mem_storedPointers_of_lookup (w : World) (k : Int) (a : Addr)
    (h : w.db.products.lookup k = some a) : a ∈ storedPointers w := by
  have he : (⟨k, a⟩ : Sigma fun _ : Int => Addr) ∈ w.db.products.entries :=
    AList.mem_lookup_iff.mp h
  exact List.mem_map.mpr ⟨⟨k, a⟩, he, rfl⟩

theorem lookup_of_mem_entries (w : World) (e : Sigma fun _ : Int => Addr)
    (h : e ∈ w.db.products.entries) : w.db.products.lookup e.1 = some e.2 :=
  AList.mem_lookup_iff.mpr h

theorem keyed_create (w : World) (a : Addr) (h : Keyed w) (hfresh : a ∉ storedPointers w) :
    Keyed (CreateProduct w a).1 := by
  intro k b hk
  rw [CreateProduct_products] at hk
  by_cases hkn : k = w.db.nextID
  · subst hkn
    rw [AList.lookup_insert] at hk
    obtain rfl := Option.some.inj hk
    rw [CreateProduct_mem_self]
  · rw [AList.lookup_insert_ne hkn] at hk
    have hb : b ≠ a := by
      rintro rfl
      exact hfresh (mem_storedPointers_of_lookup w k b hk)
    rw [CreateProduct_mem_other w a b hb]
    exact h k b hk

theorem keyed_update (w : World) (id : Int) (updates : UpdateProductRequest) (h : Keyed w) :
    Keyed (UpdateProduct w id updates).1 := by
  cases hl : w.db.products.lookup id with
  | none => rw [UpdateProduct_not_found w id updates hl]; exact h
  | some a =>
    intro k b hk
    rw [UpdateProduct_db] at hk
    by_cases hb : b = a
    · subst hb
      rw [UpdateProduct_mem_self w id updates b hl]
      exact h k b hk
    · rw [UpdateProduct_mem_other w id updates a b hl hb]
      exact h k b hk

theorem keyed_delete (w : World) (id : Int) (h : Keyed w) : Keyed (DeleteProduct w id).1 := by
  intro k b hk
  rw [DeleteProduct_mem]
  exact h k b (DeleteProduct_lookup w id k b hk).2

theorem keyed_runCalls (cs : List Call) : ∀ w : World, Keyed w → freshCreates w cs = true →
    Keyed (runCalls w cs) := by
  induction cs with
  | nil => intro w h _; exact h
  | cons c cs ih =>
    intro w h hf
    cases c with
    | create product =>
      simp only [freshCreates, Bool.and_eq_true, decide_eq_true_eq] at hf
      exact ih _ (keyed_create w product h hf.1) hf.2
    | update id updates => exact ih _ (keyed_update w id updates h) hf
    | delete id => exact ih _ (keyed_delete w id h) hf
    | get id => exact ih _ h hf
    | list order => exact ih _ h hf
    | search order category => exact ih _ h hf

theorem seed_keyed (w : World) (h : w.onceDone = false) : Keyed (GetDB .perIteration w) := by
  intro k a hk
  have he : (⟨k, a⟩ : Sigma fun _ : Int => Addr) ∈ (GetDB .perIteration w).db.products.entries :=
    AList.mem_lookup_iff.mp hk
  obtain ⟨h1, h2, h3⟩ := seed_mem w h
  rw [seed_entries w h] at he
  simp only [List.mem_cons, Sigma.mk.inj_iff, heq_eq_eq, List.mem_singleton, List.not_mem_nil,
    or_false] at he
  rcases he with ⟨rfl, rfl⟩ | ⟨rfl, rfl⟩ | ⟨rfl, rfl⟩
  · rw [h3]
  · rw [h2]
  · rw [h1]

theorem keyed_ids_nodup (w : World) (h : Keyed w) :
    ((storedRecords w).map (fun p => p.ID)).Nodup := by
  have hk : (storedRecords w).map (fun p => p.ID) = w.db.products.keys := by
    unfold storedRecords AList.keys List.keys
    rw [List.map_map]
    apply List.map_congr_left
    intro e he
    exact h e.1 e.2 (lookup_of_mem_entries w e he)
  rw [hk]
  exact w.db.products.keys_nodup

/-! ## C15: unique stored ids -/

/-- C15, counterexample. Three ways in which a state reached from the initialised
store breaks the claim.  A caller allocates one draft (address 3) and passes it to
`CreateProduct` twice: keys 4 and 5 both hold the pointer 3, the record behind it
has ID 5, so the product stored under key 4 does not have ID 4 and
`GetAllProducts` returns two products with id 5.  With one loop variable for the
seeding loop (Go before 1.22), right after the seeding key 1 holds a record with
ID 3.  After 2^63 - 4 creates the counter, 4 after the seeding, has wrapped
around to -2^63 while the key 2^63 - 1 is stored, so that key is not below the
counter. -/
theorem C15_counterexample :
    (sharedWorld.db.products.lookup 4 = some 3
        ∧ (sharedWorld.mem 3).ID = 5
        ∧ (GetAllProducts sharedWorld id).map (fun p => p.ID) = [5, 5, 3, 2, 1])
      ∧ ((runCalls (GetDB .perLoop bootWorld) []).db.products.lookup 1 = some 0
        ∧ ((runCalls (GetDB .perLoop bootWorld) []).mem 0).ID = 3)
      ∧ ((runCalls draftWorld
            (List.replicate 9223372036854775804 (Call.create 3))).db.products.lookup
              9223372036854775807 = some 3
        ∧ (runCalls draftWorld
            (List.replicate 9223372036854775804 (Call.create 3))).db.nextID
              = -9223372036854775808) := by
  refine ⟨by decide, by decide, ?_⟩
  have hsplit : List.replicate 9223372036854775804 (Call.create 3)
      = List.replicate 9223372036854775803 (Call.create 3) ++ [Call.create 3] :=
    List.replicate_succ' 9223372036854775803 (Call.create 3)
  have hstart : wrapInt draftWorld.db.nextID = draftWorld.db.nextID := by decide
  have hcounter : (runCalls draftWorld
      (List.replicate 9223372036854775803 (Call.create 3))).db.nextID
        = 9223372036854775807 := by
    rw [runCalls_nextID _ _ hstart, numCreates_replicate]
    decide
  rw [hsplit, runCalls_append]
  constructor
  · show (CreateProduct (runCalls draftWorld
        (List.replicate 9223372036854775803 (Call.create 3))) 3).1.db.products.lookup
          9223372036854775807 = some 3
    rw [CreateProduct_products, hcounter, AList.lookup_insert]
  · show (CreateProduct (runCalls draftWorld
        (List.replicate 9223372036854775803 (Call.create 3))) 3).1.db.nextID
          = -9223372036854775808
    rw [CreateProduct_nextID, hcounter]
    decide

/-- C15, amended. When every iteration of the seeding loop has its own variable
(Go 1.22 or later): in every state reached from the initialised store (seeding
included) by a sequence of store calls in which no `CreateProduct` is given a
pointer the store already holds, the product stored under key k has ID k; k is
below the identifier counter as long as the counter has not wrapped around, that
is, for at most 2^63 - 5 creates after the seeding; the products returned by
`GetAllProducts` have pairwise distinct ids and `GetProduct(id)`, when found,
returns a product whose ID is id. -/
theorem C15_unique_stored_ids (w : World) (cs : List Call) (order : RangeOrder)
    (hw : w.onceDone = false) (hfresh : freshCreates (GetDB .perIteration w) cs = true)
    (horder : order.Valid) :
    (∀ k product, (runCalls (GetDB .perIteration w) cs).db.products.lookup k = some product →
        ((runCalls (GetDB .perIteration w) cs).mem product).ID = k)
      ∧ (((numCreates cs : Nat) : Int) + 4 ≤ maxInt →
          ∀ k product,
            (runCalls (GetDB .perIteration w) cs).db.products.lookup k = some product →
            k < (runCalls (GetDB .perIteration w) cs).db.nextID)
      ∧ ((GetAllProducts (runCalls (GetDB .perIteration w) cs) order).map
          (fun p => p.ID)).Nodup
      ∧ (∀ id product, GetProduct (runCalls (GetDB .perIteration w) cs) id = (some product, true) →
          ((runCalls (GetDB .perIteration w) cs).mem product).ID = id) := by
  have hk := keyed_runCalls cs _ (seed_keyed w hw) hfresh
  refine ⟨hk, fun hbound => reachable_keysBelow .perIteration w cs hw hbound, ?_, ?_⟩
  · exact ((GetAllProducts_perm _ order horder).map _).nodup_iff.mpr (keyed_ids_nodup _ hk)
  · intro id product hget
    unfold GetProduct at hget
    cases hl : (runCalls (GetDB .perIteration w) cs).db.products.lookup id with
    | none => rw [hl] at hget; simp at hget
    | some b =>
      rw [hl] at hget
      simp only [Prod.mk.injEq, Option.some.injEq, and_true] at hget
      subst hget
      exact hk id b hl

/-- C15, amended, on a sequence that creates with two different pointers, updates
and deletes: the ids returned by `GetAllProducts` are pairwise distinct and the
key 4 is below the counter. -/
theorem C15_unique_stored_ids_witness :
    bootWorld.onceDone = false
      ∧ freshCreates (GetDB .perIteration bootWorld)
          [.create 3, .update 4 priceOnlyRequest, .delete 2, .create 9] = true
      ∧ RangeOrder.Valid id
      ∧ ((GetAllProducts (runCalls (GetDB .perIteration bootWorld)
            [.create 3, .update 4 priceOnlyRequest, .delete 2, .create 9]) id).map
          (fun p => p.ID)).Nodup
      ∧ 4 < (runCalls (GetDB .perIteration bootWorld)
            [.create 3, .update 4 priceOnlyRequest, .delete 2, .create 9]).db.nextID :=
  ⟨rfl, by decide, RangeOrder.valid_id,
    (C15_unique_stored_ids bootWorld
      [.create 3, .update 4 priceOnlyRequest, .delete 2, .create 9] id rfl (by decide)
      RangeOrder.valid_id).2.2.1,
    (C15_unique_stored_ids bootWorld
      [.create 3, .update 4 priceOnlyRequest, .delete 2, .create 9] id rfl (by decide)
      RangeOrder.valid_id).2.1 (by decide) 4 3 (by decide)⟩

/-! ## C16: ownership -/

/-- C16, counterexample. In the scenario store `GetProduct(1)` returns the pointer
0 that the store holds; after the caller writes a new name through it, the record
found by `GetProduct(1)` has that name and `GetAllProducts` returns a different
list.  Likewise `CreateProduct` returns and keeps the pointer to the caller's
draft, so a write to the draft after the call changes the stored record. -/
theorem C16_counterexample :
    GetProduct scenarioWorld 1 = (some 0, true)
      ∧ GetProduct (scenarioWorld.modify 0 renamed) 1 = (some 0, true)
      ∧ (scenarioWorld.mem 0).Name = "X"
      ∧ ((scenarioWorld.modify 0 renamed).mem 0).Name = "Z"
      ∧ GetAllProducts (scenarioWorld.modify 0 renamed) id ≠ GetAllProducts scenarioWorld id
      ∧ (CreateProduct (scenarioWorld.new draftProduct).1 1).2 = 1
      ∧ GetProduct (CreateProduct (scenarioWorld.new draftProduct).1 1).1 2 = (some 1, true)
      ∧ ((CreateProduct (scenarioWorld.new draftProduct).1 1).1.mem 1).Name = "Y"
      ∧ (((CreateProduct (scenarioWorld.new draftProduct).1 1).1.modify 1 renamed).mem 1).Name
          = "Z" := by
  decide

/-- C16, amended. For every state, a write to memory the store holds no pointer
to, which is where a caller keeps the copies it got from `GetAllProducts` or
`SearchProducts`, changes neither what `GetProduct` returns, nor the record behind
the pointer it returns, nor what `GetAllProducts` returns.  The pointers returned
by `GetProduct`, `UpdateProduct` and `CreateProduct` are pointers the store
holds. -/
theorem C16_ownership (w : World) (a : Addr) (f : Product → Product)
    (hout : a ∉ storedPointers w) :
    (∀ id, GetProduct (w.modify a f) id = GetProduct w id)
      ∧ (∀ id product, GetProduct w id = (some product, true) →
          (w.modify a f).mem product = w.mem product)
      ∧ (∀ order : RangeOrder, order.Valid →
          GetAllProducts (w.modify a f) order = GetAllProducts w order)
      ∧ (∀ id product, GetProduct w id = (some product, true) → product ∈ storedPointers w)
      ∧ (∀ id updates product, (UpdateProduct w id updates).2 = (some product, true) →
          product ∈ storedPointers (UpdateProduct w id updates).1)
      ∧ (∀ draft, (CreateProduct w draft).2 ∈ storedPointers (CreateProduct w draft).1) := by
  have hget : ∀ id product, GetProduct w id = (some product, true) →
      w.db.products.lookup id = some product := by
    intro id product h
    unfold GetProduct at h
    cases hl : w.db.products.lookup id with
    | none => rw [hl] at h; simp at h
    | some b =>
      rw [hl] at h
      simp only [Prod.mk.injEq, Option.some.injEq, and_true] at h
      rw [h]
  have hmem : ∀ b ∈ storedPointers w, (w.modify a f).mem b = w.mem b := by
    intro b hb
    exact World.modify_mem_of_ne w a b f (fun h => hout (h ▸ hb))
  refine ⟨fun id => rfl, ?_, ?_, ?_, ?_, ?_⟩
  · intro id product h
    exact hmem product (mem_storedPointers_of_lookup w id product (hget id product h))
  · intro order horder
    rw [GetAllProducts_eq, GetAllProducts_eq]
    apply List.map_congr_left
    intro e he
    have he' : e ∈ w.db.products.entries := (horder _).subset he
    exact hmem e.2 (List.mem_map.mpr ⟨e, he', rfl⟩)
  · intro id product h
    exact mem_storedPointers_of_lookup w id product (hget id product h)
  · intro id updates product h
    cases hl : w.db.products.lookup id with
    | none =>
      rw [UpdateProduct_not_found w id updates hl] at h
      simp at h
    | some b =>
      rw [UpdateProduct_found w id updates b hl] at h
      simp only [Prod.mk.injEq, Option.some.injEq, and_true] at h
      subst h
      apply mem_storedPointers_of_lookup _ id
      rw [UpdateProduct_db]
      exact hl
  · intro draft
    apply mem_storedPointers_of_lookup _ w.db.nextID
    rw [CreateProduct_products, AList.lookup_insert]
    rfl

/-- C16, amended, in the scenario store: a write at address 1, which the store
does not hold, leaves the reads as they were. -/
theorem C16_ownership_witness :
    1 ∉ storedPointers scenarioWorld
      ∧ GetProduct (scenarioWorld.modify 1 renamed) 1 = GetProduct scenarioWorld 1
      ∧ (scenarioWorld.modify 1 renamed).mem 0 = scenarioWorld.mem 0
      ∧ GetAllProducts (scenarioWorld.modify 1 renamed) id = GetAllProducts scenarioWorld id :=
  ⟨by decide, (C16_ownership scenarioWorld 1 renamed (by decide)).1 1,
    (C16_ownership scenarioWorld 1 renamed (by decide)).2.1 1 0 (by decide),
    (C16_ownership scenarioWorld 1 renamed (by decide)).2.2.1 id RangeOrder.valid_id⟩

/-! ## Length of the listing after a delete -/

end ApiService
